import Mathlib

/-!
Verification of the eBPF table-compilation subsystem of p4c
(`backends/ebpf/ebpfTable.cpp`).  The definitions below are a shallow
embedding of the table-lowering logic of that file: match-kind handling,
key-struct layout, map-kind selection, instance (map declaration)
emission, key encoding, action-ID assignment, and the counter-table
increment/add code generators.  Theorems about these definitions settle
the specification claims.
-/

set_option maxRecDepth 4096

/-- Match kind of a key element, as compared by name in the C++ source
(`exact`, `ternary`, `lpm`, `selector` from the P4 core library); `unknown`
stands for any other match-kind name. -/
inductive MatchKind
  | exact
  | ternary
  | lpm
  | selector
  | unknown
  deriving DecidableEq

/-- Resolved EBPF type of a key field: a scalar with a bit width, or a type
that is not `IHasWidth` (rejected by `EBPFTable::initKey` with a type error). -/
inductive KeyFieldType
  | scalar (width : Nat)
  | noWidth
  deriving DecidableEq

/-- One element of a table's key, as consumed by `EBPFTable`. -/
structure KeyElement where
  matchKind : MatchKind
  typ : KeyFieldType
  deriving DecidableEq

/-- The `TableKind` enumeration of the eBPF backend. -/
inductive TableKind
  | TableArray
  | TableHash
  | TableLPMTrie
  deriving DecidableEq

/-- Error categories reported through `::error` in the source:
`ErrorType::ERR_TYPE_ERROR`, `ERR_UNSUPPORTED`, `ERR_EXPECTED`,
`ERR_INVALID` and `ERR_OVERLIMIT`. -/
inductive ErrKind
  | typeErr
  | unsupportedErr
  | expectedErr
  | invalidErr
  | overlimitErr
  deriving DecidableEq

/-- Name of the implementation block's type: `array_table`, `hash_table`,
or any other (unrecognized) name. -/
inductive ImplKindName
  | arrayTable
  | hashTable
  | unknownImpl
  deriving DecidableEq

/-- The table's `implementation` property as inspected by
`EBPFTable::emitInstance`: missing (`getProperty` returned null), malformed
(not an expression value / constructor call / resolved block), or a
block whose type name is given by `ImplKindName`. -/
inductive ImplProp
  | missing
  | malformed
  | implBlock (k : ImplKindName)
  deriving DecidableEq

/-- The `size` parameter value of the implementation block: missing, not an
`IR::Constant`, or an integer constant. -/
inductive SizeArg
  | absent
  | nonConstant
  | constant (v : Int)
  deriving DecidableEq

/-- Modelled from the spec: `IR::Constant::fitsInt` (defined in `ir/`, not in
this file's sources) checks that the constant fits the platform integer
range, i.e. a 32-bit signed `int`. -/
def fitsInt (v : Int) : Bool :=
  decide (-2147483648 ≤ v) && decide (v ≤ 2147483647)

/-- A table as seen by `EBPFTable::emitInstance`: its external name, its
optional key (`keyGenerator`, null when the table declares no key), its
implementation property and the declared size. -/
structure Table where
  name : String
  keyGenerator : Option (List KeyElement)
  impl : ImplProp
  size : SizeArg
  deriving DecidableEq

/-- Modelled from the spec: `EBPFTableBase` (in `ebpfTable.h`, not in this
file's sources) derives the key type name deterministically from the table
instance name. -/
def keyTypeName (t : Table) : String :=
  t.name ++ "_key"

/-- Modelled from the spec: `EBPFTableBase` derives the value type name
deterministically from the table instance name. -/
def valueTypeName (t : Table) : String :=
  t.name ++ "_value"

/-- Name of the single-slot default-action map, assigned in the `EBPFTable`
constructor as `instanceName + "_defaultAction"`. -/
def defaultActionMapName (t : Table) : String :=
  t.name ++ "_defaultAction"

/-- Modelled from the spec: `program->arrayIndexType` (in `ebpfProgram.h`,
not in this file's sources), the key type of array maps. -/
def arrayIndexType : String :=
  "u32"

/-- One map declaration passed to `target->emitTableDecl`. -/
structure MapDecl where
  name : String
  kind : TableKind
  keyType : String
  valueType : String
  size : Int
  deriving DecidableEq

/-- The primary map declaration emitted for a keyed table. -/
def primaryMapDecl (t : Table) (tk : TableKind) (v : Int) : MapDecl :=
  { name := t.name
    kind := tk
    keyType := "struct " ++ keyTypeName t
    valueType := "struct " ++ valueTypeName t
    size := v }

/-- The single-slot array map declaration for the default action. -/
def defaultActionMapDecl (t : Table) : MapDecl :=
  { name := defaultActionMapName t
    kind := TableKind.TableArray
    keyType := arrayIndexType
    valueType := "struct " ++ valueTypeName t
    size := 1 }

/-- The loop of `EBPFTable::emitInstance` that upgrades the hinted table
kind: every LPM key field switches the kind to `TableLPMTrie`, and a second
LPM field (the kind being already `TableLPMTrie`) is reported as
unsupported ("only one LPM field allowed").  Note that this loop does not
inspect ternary fields. -/
def resolveTableKind : List KeyElement → TableKind → Except ErrKind TableKind
  | [], k => Except.ok k
  | e :: rest, k =>
    if e.matchKind = MatchKind.lpm then
      if k = TableKind.TableLPMTrie then Except.error ErrKind.unsupportedErr
      else resolveTableKind rest TableKind.TableLPMTrie
    else resolveTableKind rest k

/-- Size validation and map emission for a keyed table, the tail of
`EBPFTable::emitInstance`: a missing or non-constant size argument and a
constant not fitting the platform int are `ERR_UNSUPPORTED`, a non-positive
size is `ERR_INVALID`, and otherwise the primary map followed by the
default-action map are declared. -/
def emitInstanceKeyed (t : Table) (keys : List KeyElement) (hinted : TableKind) :
    List MapDecl × Option ErrKind :=
  match resolveTableKind keys hinted with
  | Except.error e => ([], some e)
  | Except.ok tk =>
    match t.size with
    | SizeArg.absent => ([], some ErrKind.unsupportedErr)
    | SizeArg.nonConstant => ([], some ErrKind.unsupportedErr)
    | SizeArg.constant v =>
      if !(fitsInt v) then ([], some ErrKind.unsupportedErr)
      else if v ≤ 0 then ([], some ErrKind.invalidErr)
      else ([primaryMapDecl t tk v, defaultActionMapDecl t], none)

/-- Shallow embedding of `EBPFTable::emitInstance`: the pair of the emitted
map declarations (in emission order) and the reported error, if any.  A
keyless table skips every check and emits only the default-action map; a
keyed table first resolves the implementation property (missing, malformed,
or unrecognized block type names are `ERR_EXPECTED` and nothing is emitted),
then resolves the table kind and validates the size. -/
def emitInstance (t : Table) : List MapDecl × Option ErrKind :=
  match t.keyGenerator with
  | none => ([defaultActionMapDecl t], none)
  | some keys =>
    match t.impl with
    | ImplProp.missing => ([], some ErrKind.expectedErr)
    | ImplProp.malformed => ([], some ErrKind.expectedErr)
    | ImplProp.implBlock ImplKindName.unknownImpl => ([], some ErrKind.expectedErr)
    | ImplProp.implBlock ImplKindName.arrayTable =>
      emitInstanceKeyed t keys TableKind.TableArray
    | ImplProp.implBlock ImplKindName.hashTable =>
      emitInstanceKeyed t keys TableKind.TableHash

/-- The loop body of `EBPFTable::isLPMTable`: a ternary field returns false
immediately; an LPM field records that the table is LPM. -/
def isLPMTableGo : List KeyElement → Bool → Bool
  | [], acc => acc
  | e :: rest, acc =>
    if e.matchKind = MatchKind.ternary then false
    else if e.matchKind = MatchKind.lpm then isLPMTableGo rest true
    else isLPMTableGo rest acc

/-- Shallow embedding of `EBPFTable::isLPMTable`: true when some key field
is LPM and no key field is ternary. -/
def isLPMTable : Option (List KeyElement) → Bool
  | none => false
  | some keys => isLPMTableGo keys false

/-- Number of LPM key fields. -/
def countLPM (keys : List KeyElement) : Nat :=
  keys.countP (fun e => e.matchKind = MatchKind.lpm)

/-- A table whose key has a ternary field followed by one LPM field, with a
hash implementation hint and a valid size. -/
def ternaryLpmTable : Table :=
  { name := "t1"
    keyGenerator := some [⟨MatchKind.ternary, KeyFieldType.scalar 32⟩,
                          ⟨MatchKind.lpm, KeyFieldType.scalar 32⟩]
    impl := ImplProp.implBlock ImplKindName.hashTable
    size := SizeArg.constant 1024 }

/-- C1: for a table whose key contains a ternary field and one LPM field,
`EBPFTable::emitInstance` nevertheless computes `TableLPMTrie` for the
primary map (its loop ignores ternary fields), while `isLPMTable` — which
governs the key-struct layout — returns false for the same table, so the
Array/Hash implementation hint is not kept.  This refutes the claim on the
code as written. -/
theorem emitInstance_ternary_lpm_yields_LPMTrie :
    emitInstance ternaryLpmTable =
      ([{ name := "t1"
          kind := TableKind.TableLPMTrie
          keyType := "struct t1_key"
          valueType := "struct t1_value"
          size := 1024 },
        { name := "t1_defaultAction"
          kind := TableKind.TableArray
          keyType := "u32"
          valueType := "struct t1_value"
          size := 1 }], none)
  ∧ isLPMTable ternaryLpmTable.keyGenerator = false := by
  constructor
  · rfl
  · rfl

/-- C10: a table without a key emits only the default-action array map and
reports no error, for every implementation property and size argument,
including missing, malformed and invalid ones. -/
theorem emitInstance_keyless_only_default_map (name : String) (impl : ImplProp)
    (size : SizeArg) :
    emitInstance { name := name, keyGenerator := none, impl := impl, size := size } =
      ([defaultActionMapDecl { name := name, keyGenerator := none,
                               impl := impl, size := size }], none) := by
  rfl

/-- Unfolding lemma for `countLPM` on a cons cell. -/
theorem countLPM_cons (e : KeyElement) (rest : List KeyElement) :
    countLPM (e :: rest) =
      countLPM rest + (if e.matchKind = MatchKind.lpm then 1 else 0) := by
  simp [countLPM, List.countP_cons]

/-- Resolution leaves the starting kind unchanged when no key field is LPM. -/
theorem resolveTableKind_zero_lpm (keys : List KeyElement) (k : TableKind)
    (h : countLPM keys = 0) :
    resolveTableKind keys k = Except.ok k := by
  induction keys generalizing k with
  | nil => simp [resolveTableKind]
  | cons e rest ih =>
    have he : ¬ e.matchKind = MatchKind.lpm := by
      intro hc
      rw [countLPM_cons, if_pos hc] at h
      omega
    rw [countLPM_cons, if_neg he] at h
    simp [resolveTableKind, he, ih k (by omega)]

/-- Resolution starting from `TableLPMTrie` fails as soon as one LPM field
is present. -/
theorem resolveTableKind_from_trie_errors (keys : List KeyElement)
    (h : 1 ≤ countLPM keys) :
    resolveTableKind keys TableKind.TableLPMTrie =
      Except.error ErrKind.unsupportedErr := by
  induction keys with
  | nil => simp [countLPM] at h
  | cons e rest ih =>
    by_cases he : e.matchKind = MatchKind.lpm
    · simp [resolveTableKind, he]
    · rw [countLPM_cons, if_neg he] at h
      simp [resolveTableKind, he, ih (by omega)]

/-- Resolution fails whenever at least two key fields are LPM, from any
starting kind. -/
theorem resolveTableKind_two_lpm_errors (keys : List KeyElement) (k : TableKind)
    (h : 2 ≤ countLPM keys) :
    resolveTableKind keys k = Except.error ErrKind.unsupportedErr := by
  induction keys generalizing k with
  | nil => simp [countLPM] at h
  | cons e rest ih =>
    by_cases he : e.matchKind = MatchKind.lpm
    · rw [countLPM_cons, if_pos he] at h
      by_cases hk : k = TableKind.TableLPMTrie
      · simp [resolveTableKind, he, hk]
      · simp [resolveTableKind, he, hk,
              resolveTableKind_from_trie_errors rest (by omega)]
    · rw [countLPM_cons, if_neg he] at h
      simp [resolveTableKind, he, ih k (by omega)]

/-- With at most one LPM field and a non-trie starting kind, resolution
succeeds, upgrading to `TableLPMTrie` exactly when one LPM field exists. -/
theorem resolveTableKind_ok (keys : List KeyElement) (k : TableKind)
    (hk : k ≠ TableKind.TableLPMTrie) (h : countLPM keys ≤ 1) :
    resolveTableKind keys k =
      Except.ok (if 1 ≤ countLPM keys then TableKind.TableLPMTrie else k) := by
  induction keys generalizing k with
  | nil => simp [resolveTableKind, countLPM]
  | cons e rest ih =>
    by_cases he : e.matchKind = MatchKind.lpm
    · have h0 : countLPM rest = 0 := by
        rw [countLPM_cons, if_pos he] at h
        omega
      have hone : 1 ≤ countLPM (e :: rest) := by
        rw [countLPM_cons, if_pos he]
        omega
      simp [resolveTableKind, he, hk, hone,
            resolveTableKind_zero_lpm rest TableKind.TableLPMTrie h0]
    · have hcnt : countLPM (e :: rest) = countLPM rest := by
        rw [countLPM_cons, if_neg he]
        omega
      rw [resolveTableKind]
      simp only [he, if_false, hcnt]
      exact ih k hk (by omega)

/-- Table kind chosen by the implementation hint before LPM resolution. -/
def hintTableKind : ImplKindName → TableKind
  | ImplKindName.arrayTable => TableKind.TableArray
  | ImplKindName.hashTable => TableKind.TableHash
  | ImplKindName.unknownImpl => TableKind.TableHash

/-- C7: a table with two LPM key fields and no ternary field, whose
implementation property resolves to `array_table` or `hash_table`, makes
`emitInstance` report `ERR_UNSUPPORTED` ("only one LPM field allowed") and
emit no map declaration at all — neither the primary map nor the
default-action map. -/
theorem emitInstance_two_lpm_unsupported_no_maps (t : Table)
    (keys : List KeyElement) (k : ImplKindName)
    (h1 : t.keyGenerator = some keys)
    (h2 : t.impl = ImplProp.implBlock k)
    (h3 : k ≠ ImplKindName.unknownImpl)
    (h4 : countLPM keys = 2)
    (_h5 : keys.countP (fun e => e.matchKind = MatchKind.ternary) = 0) :
    emitInstance t = ([], some ErrKind.unsupportedErr) := by
  have herr : ∀ k0 : TableKind,
      resolveTableKind keys k0 = Except.error ErrKind.unsupportedErr := by
    intro k0
    exact resolveTableKind_two_lpm_errors keys k0 (by omega)
  cases k with
  | unknownImpl => exact absurd rfl h3
  | arrayTable =>
    simp [emitInstance, h1, h2, emitInstanceKeyed, herr]
  | hashTable =>
    simp [emitInstance, h1, h2, emitInstanceKeyed, herr]

/-- Concrete instance for `emitInstance_two_lpm_unsupported_no_maps`. -/
def twoLpmTable : Table :=
  { name := "t7"
    keyGenerator := some [⟨MatchKind.lpm, KeyFieldType.scalar 32⟩,
                          ⟨MatchKind.lpm, KeyFieldType.scalar 16⟩]
    impl := ImplProp.implBlock ImplKindName.arrayTable
    size := SizeArg.constant 16 }

/-- Witness: the two-LPM table satisfies the hypotheses and emits nothing. -/
theorem emitInstance_two_lpm_unsupported_no_maps_witness :
    countLPM [⟨MatchKind.lpm, KeyFieldType.scalar 32⟩,
              ⟨MatchKind.lpm, KeyFieldType.scalar 16⟩] = 2
  ∧ emitInstance twoLpmTable = ([], some ErrKind.unsupportedErr) :=
  ⟨by decide,
   emitInstance_two_lpm_unsupported_no_maps twoLpmTable _ ImplKindName.arrayTable
     rfl rfl (by decide) (by decide) (by decide)⟩

/-- C8: a keyless table emits exactly the default-action map; a keyed table
that passes every check (recognized implementation block, at most one LPM
field, a positive size constant within the platform integer range) emits
exactly two map declarations: the primary map with the resolved table kind,
the key struct, the value struct and the declared capacity, followed by the
single-slot default-action array map of capacity 1. -/
theorem emitInstance_emits_primary_and_default (t : Table) :
    (t.keyGenerator = none →
      emitInstance t = ([defaultActionMapDecl t], none))
  ∧ (∀ (keys : List KeyElement) (k : ImplKindName) (v : Int),
      t.keyGenerator = some keys →
      t.impl = ImplProp.implBlock k →
      k ≠ ImplKindName.unknownImpl →
      countLPM keys ≤ 1 →
      t.size = SizeArg.constant v →
      fitsInt v = true →
      0 < v →
      emitInstance t =
        ([primaryMapDecl t
            (if 1 ≤ countLPM keys then TableKind.TableLPMTrie else hintTableKind k) v,
          defaultActionMapDecl t], none)) := by
  constructor
  · intro h
    simp [emitInstance, h]
  · intro keys k v h1 h2 h3 hlpm hsz hfit hpos
    have hres : ∀ k0 : TableKind, k0 ≠ TableKind.TableLPMTrie →
        resolveTableKind keys k0 =
          Except.ok (if 1 ≤ countLPM keys then TableKind.TableLPMTrie else k0) := by
      intro k0 hk0
      exact resolveTableKind_ok keys k0 hk0 hlpm
    have hneg : ¬ v ≤ 0 := by omega
    cases k with
    | unknownImpl => exact absurd rfl h3
    | arrayTable =>
      simp [emitInstance, h1, h2, emitInstanceKeyed,
            hres TableKind.TableArray (by decide), hsz, hfit, hneg, hintTableKind]
    | hashTable =>
      simp [emitInstance, h1, h2, emitInstanceKeyed,
            hres TableKind.TableHash (by decide), hsz, hfit, hneg, hintTableKind]

/-- The end-to-end example table of the spec: one exact 32-bit key field,
hash implementation, capacity 1024. -/
def endToEndTable : Table :=
  { name := "t8"
    keyGenerator := some [⟨MatchKind.exact, KeyFieldType.scalar 32⟩]
    impl := ImplProp.implBlock ImplKindName.hashTable
    size := SizeArg.constant 1024 }

/-- Witness: the end-to-end example emits the primary hash map of capacity
1024 and the default-action array map of capacity 1. -/
theorem emitInstance_emits_primary_and_default_witness :
    countLPM [⟨MatchKind.exact, KeyFieldType.scalar 32⟩] ≤ 1
  ∧ emitInstance endToEndTable =
      ([primaryMapDecl endToEndTable TableKind.TableHash 1024,
        defaultActionMapDecl endToEndTable], none) :=
  ⟨by decide,
   (emitInstance_emits_primary_and_default endToEndTable).2
     [⟨MatchKind.exact, KeyFieldType.scalar 32⟩] ImplKindName.hashTable 1024
     rfl rfl (by decide) (by decide) rfl (by decide) (by decide)⟩

/-- A declared size is invalid, in the sense enumerated by the claim:
absent, non-integral, out of the platform integer range, or non-positive. -/
def sizeDeclInvalid : SizeArg → Bool
  | SizeArg.absent => true
  | SizeArg.nonConstant => true
  | SizeArg.constant v => !(fitsInt v) || decide (v ≤ 0)

/-- The claim about capacity validation as stated: the emitter fails with
the `ERR_INVALID` kind exactly when the size is absent, non-integral, out
of range, or non-positive. -/
def claimCapacityStated (t : Table) : Prop :=
  ((emitInstance t).2 = some ErrKind.invalidErr) ↔ sizeDeclInvalid t.size = true

/-- A keyed table with a recognized hash implementation but no size
argument at all. -/
def absentSizeTable : Table :=
  { name := "t6"
    keyGenerator := some [⟨MatchKind.exact, KeyFieldType.scalar 32⟩]
    impl := ImplProp.implBlock ImplKindName.hashTable
    size := SizeArg.absent }

/-- C6 counterexample: for an absent capacity the emitter reports
`ERR_UNSUPPORTED` ("Expected an integer argument"), not `ERR_INVALID`, so
the claim as stated fails on this table. -/
theorem claimCapacityStated_false_on_absent_size :
    ¬ claimCapacityStated absentSizeTable := by
  unfold claimCapacityStated
  decide

/-- C6 amended: for a keyed table with a recognized implementation block
and an accepted LPM configuration, the emitter fails — emitting no map at
all — exactly when the capacity is absent, non-integral, out of the
platform integer range, or non-positive; the error kind is `ERR_INVALID`
only for an in-range integer capacity ≤ 0, while the other three failure
cases report `ERR_UNSUPPORTED`. -/
theorem emitInstance_capacity_validation (t : Table) (keys : List KeyElement)
    (k : ImplKindName) (tk : TableKind)
    (h1 : t.keyGenerator = some keys)
    (h2 : t.impl = ImplProp.implBlock k)
    (h3 : k ≠ ImplKindName.unknownImpl)
    (h4 : resolveTableKind keys (hintTableKind k) = Except.ok tk) :
    (((emitInstance t).2 = some ErrKind.invalidErr) ↔
        (∃ v : Int, t.size = SizeArg.constant v ∧ fitsInt v = true ∧ v ≤ 0))
  ∧ (((emitInstance t).2 = some ErrKind.unsupportedErr) ↔
        (t.size = SizeArg.absent ∨ t.size = SizeArg.nonConstant ∨
         ∃ v : Int, t.size = SizeArg.constant v ∧ fitsInt v = false))
  ∧ ((emitInstance t).2 ≠ none → (emitInstance t).1 = [])
  ∧ (sizeDeclInvalid t.size = false → (emitInstance t).2 = none) := by
  have hkeyed : emitInstance t = emitInstanceKeyed t keys (hintTableKind k) := by
    cases k with
    | unknownImpl => exact absurd rfl h3
    | arrayTable => simp [emitInstance, h1, h2, hintTableKind]
    | hashTable => simp [emitInstance, h1, h2, hintTableKind]
  rw [hkeyed]
  unfold emitInstanceKeyed
  rw [h4]
  cases hsz : t.size with
  | absent => simp [sizeDeclInvalid]
  | nonConstant => simp [sizeDeclInvalid]
  | constant v =>
    by_cases hfit : fitsInt v
    · by_cases hneg : v ≤ 0
      · simp [hfit, hneg, sizeDeclInvalid]
      · simp [hfit, hneg, sizeDeclInvalid]
    · simp [Bool.not_eq_true] at hfit
      simp [hfit, sizeDeclInvalid]

/-- A keyed table with a recognized implementation block and capacity 0. -/
def zeroSizeTable : Table :=
  { name := "t6w"
    keyGenerator := some [⟨MatchKind.exact, KeyFieldType.scalar 32⟩]
    impl := ImplProp.implBlock ImplKindName.hashTable
    size := SizeArg.constant 0 }

/-- Witness: the zero-capacity table satisfies the hypotheses, the error is
`ERR_INVALID`, and nothing is emitted. -/
theorem emitInstance_capacity_validation_witness :
    resolveTableKind [⟨MatchKind.exact, KeyFieldType.scalar 32⟩]
        (hintTableKind ImplKindName.hashTable) = Except.ok TableKind.TableHash
  ∧ (emitInstance zeroSizeTable).2 = some ErrKind.invalidErr
  ∧ (emitInstance zeroSizeTable).1 = [] := by
  have h := emitInstance_capacity_validation zeroSizeTable
    [⟨MatchKind.exact, KeyFieldType.scalar 32⟩] ImplKindName.hashTable
    TableKind.TableHash rfl rfl (by decide) rfl
  have herr : (emitInstance zeroSizeTable).2 = some ErrKind.invalidErr :=
    h.1.mpr ⟨0, rfl, rfl, le_refl 0⟩
  refine ⟨rfl, herr, h.2.2.1 ?_⟩
  rw [herr]
  intro hc
  cases hc

/-- State of a counter map emitted by `EBPFCounterTable`: a partial map
from index to stored counter value. -/
def CounterMap : Type :=
  Nat → Option Nat

/-- Modelled from the spec: the counter value type is a fixed-width integer
(the `counterValueType` typedef comes from `ebpfModel.h`, outside this
file's sources); 64 bits are used here, and the atomic add wraps at that
width. -/
def counterWidth : Nat :=
  64

/-- Runtime effect of the code emitted by
`EBPFCounterTable::emitCounterIncrement`: the block declares
`init_val = 1`, looks the index up, atomically adds 1 in place when the
index is present, and upserts `init_val` when it is absent. -/
def counterIncrementRun (m : CounterMap) (idx : Nat) : CounterMap :=
  match m idx with
  | some v => fun j => if j = idx then some ((v + 1) % 2 ^ counterWidth) else m j
  | none => fun j => if j = idx then some 1 else m j

/-- Runtime effect of the code emitted by
`EBPFCounterTable::emitCounterAdd`: the block declares `init_val = 1`,
looks the index up, atomically adds the delta in place when the index is
present, and upserts `init_val` — the literal 1, not the delta — when it
is absent. -/
def counterAddRun (m : CounterMap) (idx delta : Nat) : CounterMap :=
  match m idx with
  | some v => fun j => if j = idx then some ((v + delta) % 2 ^ counterWidth) else m j
  | none => fun j => if j = idx then some 1 else m j

/-- C2: `Add(7, 5)` on an absent index stores 1, not the delta 5 — the
emitted update writes `init_val = 1` — while `Increment` initializes an
absent index to 1, a second `Increment` yields 2, and `Add` on a present
index does add the delta in place.  This exhibits the divergence of
`emitCounterAdd` from the claimed initialize-with-delta protocol. -/
theorem counterAdd_absent_initializes_to_one :
    counterAddRun (fun _ => none) 7 5 7 = some 1
  ∧ counterAddRun (fun _ => none) 7 5 7 ≠ some 5
  ∧ counterIncrementRun (fun _ => none) 7 7 = some 1
  ∧ counterIncrementRun (counterIncrementRun (fun _ => none) 7) 7 7 = some 2
  ∧ counterAddRun (fun j => if j = 7 then some 3 else none) 7 5 7 = some 8 := by
  refine ⟨rfl, ?_, rfl, rfl, rfl⟩
  intro hc
  simp [counterAddRun] at hc

/-- An entry of a table's action list, with the original P4 name (used for
the no-op comparison) and the canonical external name. -/
structure ActionDecl where
  originalName : String
  extName : String
  deriving DecidableEq

/-- Modelled from the spec: the designated no-op action's name
(`P4CoreLibrary::noAction`, defined in the frontend core library, outside
this file's sources). -/
def noActionName : String :=
  "NoAction"

/-- Constant name generated for a non-no-op action by
`EBPFTable::p4ActionToActionIDName`: the table instance name and the
action's external name, both upper-cased, joined by `_ACT_`. -/
def actionConstName (dataMapName : String) (a : ActionDecl) : String :=
  dataMapName.toUpper ++ "_ACT_" ++ a.extName.toUpper

/-- The numbering loop of `EBPFTable::emitValueActionIDNames`: every action
except the no-op gets a define pairing its constant name with the next
index; the no-op is skipped without consuming an index. -/
def actionIDDefines (dm : String) : List ActionDecl → Nat → List (String × Nat)
  | [], _ => []
  | a :: rest, idx =>
    if a.originalName = noActionName then actionIDDefines dm rest idx
    else (actionConstName dm a, idx) :: actionIDDefines dm rest (idx + 1)

/-- Shallow embedding of `EBPFTable::emitValueActionIDNames`: indices start
at 1, 0 being reserved for the no-op action. -/
def emitValueActionIDNames (dm : String) (l : List ActionDecl) : List (String × Nat) :=
  actionIDDefines dm l 1

/-- Shallow embedding of `EBPFTable::p4ActionToActionIDName`: the no-op
action always maps to the literal 0. -/
def p4ActionToActionIDName (dm : String) (a : ActionDecl) : String :=
  if a.originalName = noActionName then "0"
  else actionConstName dm a

/-- The assigned indices are the contiguous range starting at the initial
index. -/
theorem actionIDDefines_snd (dm : String) (l : List ActionDecl) (n : Nat) :
    (actionIDDefines dm l n).map Prod.snd =
      List.range' n (l.countP (fun a => a.originalName ≠ noActionName)) := by
  induction l generalizing n with
  | nil => simp [actionIDDefines]
  | cons a rest ih =>
    by_cases h : a.originalName = noActionName
    · simp [actionIDDefines, h, List.countP_cons, ih]
    · simp [actionIDDefines, h, List.countP_cons, ih, List.range'_succ]

/-- The defined constant names are those of the non-no-op actions in
declaration order. -/
theorem actionIDDefines_fst (dm : String) (l : List ActionDecl) (n : Nat) :
    (actionIDDefines dm l n).map Prod.fst =
      (l.filter (fun a => a.originalName ≠ noActionName)).map (actionConstName dm) := by
  induction l generalizing n with
  | nil => simp [actionIDDefines]
  | cons a rest ih =>
    by_cases h : a.originalName = noActionName
    · simp [actionIDDefines, h, ih]
    · simp [actionIDDefines, h, ih]

/-- C4: the no-op action is excluded from the sequential numbering and its
ID name is always the literal 0 regardless of its position, while every
other action receives a contiguous ID starting at 1 in declaration-list
order, paired with its generated constant name. -/
theorem actionIDs_contiguous_noop_zero (dm : String) (l : List ActionDecl) :
    ((emitValueActionIDNames dm l).map Prod.snd =
        List.range' 1 (l.countP (fun a => a.originalName ≠ noActionName)))
  ∧ ((emitValueActionIDNames dm l).map Prod.fst =
        (l.filter (fun a => a.originalName ≠ noActionName)).map (actionConstName dm))
  ∧ (∀ a ∈ l, a.originalName = noActionName → p4ActionToActionIDName dm a = "0") :=
  ⟨actionIDDefines_snd dm l 1, actionIDDefines_fst dm l 1,
   fun a _ h => by simp [p4ActionToActionIDName, h]⟩

/-- A no-op action entry placed in the middle of a sample action list. -/
def noopAction : ActionDecl :=
  { originalName := noActionName, extName := "NoAction_0" }

/-- A sample action list with the no-op action in the middle. -/
def sampleActions : List ActionDecl :=
  [⟨"drop", "drop"⟩, noopAction, ⟨"fwd", "fwd"⟩]

/-- A sample table instance name. -/
def dmSample : String :=
  "tbl"

/-- Witness: in the sample list the no-op (in second position) maps to 0
and the other two actions get IDs 1 and 2. -/
theorem actionIDs_contiguous_noop_zero_witness :
    noopAction ∈ sampleActions
  ∧ p4ActionToActionIDName dmSample noopAction = "0"
  ∧ (emitValueActionIDNames dmSample sampleActions).map Prod.snd = [1, 2] := by
  refine ⟨by decide, ?_, ?_⟩
  · exact (actionIDs_contiguous_noop_zero dmSample sampleActions).2.2
      noopAction (by decide) rfl
  · have h := (actionIDs_contiguous_noop_zero dmSample sampleActions).1
    rw [h]
    decide

/-- Field names assigned by `EBPFTable::initKey`: sequential `field<N>`
names in declaration order, stopping at the first key element whose type
has no defined width (that element is reported as a type error and the
loop returns). -/
def initKeyNames : List KeyElement → Nat → List String
  | [], _ => []
  | e :: rest, n =>
    match e.typ with
    | KeyFieldType.noWidth => []
    | KeyFieldType.scalar _ => ("field" ++ toString n) :: initKeyNames rest (n + 1)

/-- The `keyFieldNames` map contents recorded by `initKey` for a table. -/
def keyFieldNamesOf : Option (List KeyElement) → List String
  | none => []
  | some keys => initKeyNames keys 0

/-- Names of the per-element field declarations emitted by the loop of
`EBPFTable::emitKeyType` (one declaration per key element, named from the
`keyFieldNames` map, i.e. position-based whenever the element's type has a
width). -/
def keyTypeLoopNames : List KeyElement → Nat → List String
  | [], _ => []
  | _ :: rest, n => ("field" ++ toString n) :: keyTypeLoopNames rest (n + 1)

/-- Field list of the struct emitted by `EBPFTable::emitKeyType`: a 32-bit
`prefixlen` field first when `isLPMTable` holds, one field per key element,
and the dummy byte field exactly when the `keyFieldNames` map is empty. -/
def emitKeyTypeFields (keyGen : Option (List KeyElement)) : List String :=
  ((match keyGen with
    | none => []
    | some keys =>
      (if isLPMTable keyGen then ["prefixlen"] else []) ++ keyTypeLoopNames keys 0))
  ++ (if keyFieldNamesOf keyGen = [] then ["__dummy_table_key"] else [])

/-- Whether some key element's match kind is LPM (the claim's reading of
"a LongestPrefixMatch field exists"). -/
def hasLPMField (keyGen : Option (List KeyElement)) : Bool :=
  (keyGen.getD []).any (fun e => e.matchKind = MatchKind.lpm)

/-- The key-struct layout claim as stated: field count is the element count,
plus one whenever an LPM field exists, plus one when the element list is
empty. -/
def claimKeyFieldCountStated (keyGen : Option (List KeyElement)) : Prop :=
  (emitKeyTypeFields keyGen).length =
    (keyGen.getD []).length + (if hasLPMField keyGen then 1 else 0)
      + (if (keyGen.getD []).length = 0 then 1 else 0)

/-- C5 counterexample: a key consisting of a ternary field and an LPM field
does contain an LPM field, yet the emitted struct has exactly 2 fields —
`isLPMTable` is false because of the ternary field, so no prefix-length
field is prepended — and not the claimed 3. -/
theorem claimKeyFieldCountStated_false_on_ternary_lpm :
    ¬ claimKeyFieldCountStated
        (some [⟨MatchKind.ternary, KeyFieldType.scalar 32⟩,
               ⟨MatchKind.lpm, KeyFieldType.scalar 32⟩]) := by
  unfold claimKeyFieldCountStated
  decide

/-- Helper: the per-element loop emits one name per key element. -/
theorem keyTypeLoopNames_length (keys : List KeyElement) (n : Nat) :
    (keyTypeLoopNames keys n).length = keys.length := by
  induction keys generalizing n with
  | nil => rfl
  | cons e rest ih => simp [keyTypeLoopNames, ih]

/-- Helper: when every key element's type has a width, `initKey` records
one field name per element. -/
theorem initKeyNames_length (keys : List KeyElement) (n : Nat)
    (hw : ∀ e ∈ keys, e.typ ≠ KeyFieldType.noWidth) :
    (initKeyNames keys n).length = keys.length := by
  induction keys generalizing n with
  | nil => rfl
  | cons e rest ih =>
    have he : e.typ ≠ KeyFieldType.noWidth := hw e (List.mem_cons_self e rest)
    cases htyp : e.typ with
    | noWidth => exact absurd htyp he
    | scalar w =>
      simp [initKeyNames, htyp,
            ih (n + 1) (fun f hf => hw f (List.mem_cons_of_mem e hf))]

/-- C5 amended: for a well-typed key, the emitted key-struct field count is
the number of declared key elements, plus one exactly when `isLPMTable`
holds (an LPM field exists and no ternary field exists — not merely when an
LPM field exists), plus one exactly when the element list is empty. -/
theorem emitKeyTypeFields_count (keyGen : Option (List KeyElement))
    (hw : ∀ e ∈ keyGen.getD [], e.typ ≠ KeyFieldType.noWidth) :
    (emitKeyTypeFields keyGen).length =
      (keyGen.getD []).length + (if isLPMTable keyGen then 1 else 0)
        + (if (keyGen.getD []).length = 0 then 1 else 0) := by
  cases keyGen with
  | none => simp [emitKeyTypeFields, keyFieldNamesOf, isLPMTable]
  | some keys =>
    have hinit : (initKeyNames keys 0).length = keys.length :=
      initKeyNames_length keys 0 (by simpa using hw)
    have hloop := keyTypeLoopNames_length keys 0
    by_cases hemp : keys = []
    · subst hemp
      simp [emitKeyTypeFields, keyFieldNamesOf, initKeyNames, isLPMTable,
            isLPMTableGo, keyTypeLoopNames]
    · have hne : keyFieldNamesOf (some keys) ≠ [] := by
        intro hc
        apply hemp
        have : (initKeyNames keys 0).length = 0 := by
          simp [keyFieldNamesOf] at hc
          simp [hc]
        rw [hinit] at this
        exact List.length_eq_zero.mp this
      have hlen : keys.length ≠ 0 := fun hc => hemp (List.length_eq_zero.mp hc)
      simp only [emitKeyTypeFields, if_neg hne, Option.getD]
      rw [List.append_nil, List.length_append]
      by_cases hlpm : isLPMTable (some keys)
      · simp [hlpm, hloop, hlen]
        omega
      · simp [hlpm, hloop, hlen]

/-- Witness: a single-LPM key yields 1 element field plus the prefix-length
field, i.e. 2 fields. -/
theorem emitKeyTypeFields_count_witness :
    ([⟨MatchKind.lpm, KeyFieldType.scalar 32⟩] : List KeyElement).all
        (fun e => e.typ ≠ KeyFieldType.noWidth) = true
  ∧ (emitKeyTypeFields (some [⟨MatchKind.lpm, KeyFieldType.scalar 32⟩])).length = 2 := by
  constructor
  · decide
  · have h := emitKeyTypeFields_count
      (some [⟨MatchKind.lpm, KeyFieldType.scalar 32⟩]) (by decide)
    simpa using h

/-- Index of the last key element that is not a selector field: the
`lastKey` reverse search of `EBPFTable::validateKeys`. -/
def lastNonSelectorIdx (keys : List KeyElement) : Option Nat :=
  match keys.reverse.findIdx? (fun e => !(decide (e.matchKind = MatchKind.selector))) with
  | none => none
  | some j => some (keys.length - 1 - j)

/-- The loop of `EBPFTable::validateKeys`, with the C++ pointer comparison
`it != *lastKey` rendered as position inequality: an error is reported when
an LPM element is not the found last non-selector element. -/
def lpmNotLastGo (last : Option Nat) : List KeyElement → Nat → Bool
  | [], _ => false
  | e :: rest, i =>
    (decide (e.matchKind = MatchKind.lpm) && decide (some i ≠ last))
      || lpmNotLastGo last rest (i + 1)

/-- Shallow embedding of `EBPFTable::validateKeys`: true when the
LPM-must-be-last error is reported for some key element. -/
def validateKeysErrors : Option (List KeyElement) → Bool
  | none => false
  | some keys => lpmNotLastGo (lastNonSelectorIdx keys) keys 0

/-- Modelled from the spec: `EBPFTable::isMatchTypeSupported` is declared in
`ebpfTable.h` (outside this file's sources); the spec's data model admits
the match kinds Exact, Ternary, LongestPrefixMatch and Selector, and an
unrecognized match kind is reported as unsupported during type emission. -/
def isMatchTypeSupported : MatchKind → Bool
  | MatchKind.unknown => false
  | _ => true

/-- Whether `EBPFTable::emitKeyType` reports an unsupported-match-kind
error for some key element. -/
def emitKeyTypeUnsupported : Option (List KeyElement) → Bool
  | none => false
  | some keys => keys.any (fun e => !(isMatchTypeSupported e.matchKind))

/-- Helper: the validation loop reports an error as soon as some LPM
element's position differs from the last non-selector position. -/
theorem lpmNotLastGo_of_violation (last : Option Nat) (keys : List KeyElement)
    (j i : Nat) (h : i < keys.length)
    (hlpm : (keys.get ⟨i, h⟩).matchKind = MatchKind.lpm)
    (hne : some (j + i) ≠ last) :
    lpmNotLastGo last keys j = true := by
  induction keys generalizing j i with
  | nil => exact absurd h (Nat.not_lt_zero i)
  | cons e rest ih =>
    cases i with
    | zero =>
      have he : e.matchKind = MatchKind.lpm := hlpm
      have hj : some j ≠ last := by simpa using hne
      simp [lpmNotLastGo, he, hj]
    | succ i2 =>
      have hrec := ih (j + 1) i2 (Nat.lt_of_succ_lt_succ h) hlpm
        (by
          intro hc
          apply hne
          rw [← hc]
          congr 1
          omega)
      simp [lpmNotLastGo, hrec]

/-- C9: `validateKeys` reports an error whenever an LPM key field is not
the last non-selector element of the key, and `emitKeyType` reports an
unsupported-match error whenever some key element has an unrecognized match
kind. -/
theorem validateKeys_lpm_position_and_unknown_kind (keys : List KeyElement) :
    (∀ (i : Nat) (h : i < keys.length),
        (keys.get ⟨i, h⟩).matchKind = MatchKind.lpm →
        lastNonSelectorIdx keys ≠ some i →
        validateKeysErrors (some keys) = true)
  ∧ (∀ e ∈ keys, isMatchTypeSupported e.matchKind = false →
        emitKeyTypeUnsupported (some keys) = true) := by
  constructor
  · intro i h hlpm hne
    exact lpmNotLastGo_of_violation (lastNonSelectorIdx keys) keys 0 i h hlpm
      (by simpa using Ne.symm hne)
  · intro e he hsup
    have : (fun f => !(isMatchTypeSupported f.matchKind)) e = true := by
      simp [hsup]
    exact List.any_eq_true.mpr ⟨e, he, this⟩

/-- Witness: an LPM field in first position followed by an exact field is
flagged by `validateKeys`, and an unknown match kind is flagged during key
type emission. -/
theorem validateKeys_lpm_position_and_unknown_kind_witness :
    validateKeysErrors (some [⟨MatchKind.lpm, KeyFieldType.scalar 32⟩,
                              ⟨MatchKind.exact, KeyFieldType.scalar 8⟩]) = true
  ∧ emitKeyTypeUnsupported (some [⟨MatchKind.unknown, KeyFieldType.scalar 8⟩]) = true := by
  constructor
  · exact (validateKeys_lpm_position_and_unknown_kind
      [⟨MatchKind.lpm, KeyFieldType.scalar 32⟩,
       ⟨MatchKind.exact, KeyFieldType.scalar 8⟩]).1 0 (by decide) rfl (by decide)
  · exact (validateKeys_lpm_position_and_unknown_kind
      [⟨MatchKind.unknown, KeyFieldType.scalar 8⟩]).2
      ⟨MatchKind.unknown, KeyFieldType.scalar 8⟩ (by decide) rfl

/-- Modelled from the spec: `EBPFScalarType::generatesScalar` (declared in
`ebpfType.h`, outside this file's sources); the spec maps widths onto the
native scalar sizes 8/16/32/64 bits. -/
def generatesScalar (w : Nat) : Bool :=
  decide (w = 8) || decide (w = 16) || decide (w = 32) || decide (w = 64)

/-- Modelled from the spec: `EBPFScalarType::bytesRequired` (declared in
`ebpfType.h`), the byte count of a field that is copied byte-wise. -/
def bytesRequired (w : Nat) : Nat :=
  (w + 7) / 8

/-- The byte-swap helper chosen by `EBPFTable::emitKey` for a scalar width:
empty for a single byte, `bpf_htons`/`bpf_htonl`/`bpf_htonll` up to 64
bits, and unset (with an unsupported-width error) beyond 64 bits. -/
def swapFunction (w : Nat) : String :=
  if w ≤ 8 then ("")
  else if w ≤ 16 then ("bpf_htons")
  else if w ≤ 32 then ("bpf_htonl")
  else if w ≤ 64 then ("bpf_htonll")
  else ("")

/-- Shape of the per-field conversion emitted by `EBPFTable::emitKey`:
a direct assignment (with an optional byte-order wrapper), a `memcpy` of
`n` bytes, or a reversed byte-by-byte copy of `n` bytes. -/
inductive CopyForm
  | direct (swap : Option String)
  | memcpyBytes (n : Nat)
  | reverseBytes (n : Nat)
  deriving DecidableEq

/-- Outcome of the per-field loop body of `EBPFTable::emitKey`. -/
structure KeyEncoding where
  widthErr : Bool
  form : CopyForm
  deriving DecidableEq

/-- Per-field conversion computed by the loop body of `EBPFTable::emitKey`
for a scalar-typed key field of width `w`: `memcpy` is chosen exactly when
the width is not a native scalar size, a width beyond 64 bits additionally
reports an unsupported error, and the byte-order wrapper (or the reversed
copy in the memcpy case) is applied only when the table is an LPM table and
the field's match kind is LPM (`isLPMKeyBigEndian`). -/
def emitKeyField (tableIsLPM : Bool) (mk : MatchKind) (w : Nat) : KeyEncoding :=
  let isMemcpy := !(generatesScalar w)
  let isLPMKeyBigEndian := tableIsLPM && decide (mk = MatchKind.lpm)
  { widthErr := decide (64 < w)
    form :=
      if isMemcpy then
        if isLPMKeyBigEndian then CopyForm.reverseBytes (bytesRequired w)
        else CopyForm.memcpyBytes (bytesRequired w)
      else
        CopyForm.direct (if isLPMKeyBigEndian then some (swapFunction w) else none) }

/-- The key-encoding claim as stated: every field of native scalar width is
directly assigned, wrapped in a byte-order conversion whenever its width
exceeds 8 bits, with no condition on the match kind or the table. -/
def claimKeyEncodingStated (tableIsLPM : Bool) (mk : MatchKind) (w : Nat) : Prop :=
  generatesScalar w = true →
  (emitKeyField tableIsLPM mk w).form =
    (if 8 < w then CopyForm.direct (some (swapFunction w))
     else CopyForm.direct none)

/-- C3 counterexample: a 32-bit exact-match field of a non-LPM table is
assigned directly with no byte-order conversion, refuting the claim as
stated. -/
theorem claimKeyEncodingStated_false_on_exact32 :
    ¬ claimKeyEncodingStated false MatchKind.exact 32 := by
  unfold claimKeyEncodingStated
  decide

/-- C3 amended: a scalar-width (8/16/32/64-bit) field is emitted as a
direct assignment whose byte-order wrapper is present exactly when the
table is LPM and the field's match kind is LPM; a non-scalar-width field is
copied byte-wise (`memcpy`, or the reversed copy for the LPM field of an
LPM table), with the wider-than-64-bit error exactly above 64 bits; and for
widths in (8, 64] the chosen wrapper is a real conversion function. -/
theorem emitKeyField_encoding (tableIsLPM : Bool) (mk : MatchKind) (w : Nat) :
    (generatesScalar w = true →
      emitKeyField tableIsLPM mk w =
        { widthErr := false
          form := CopyForm.direct
            (if tableIsLPM && decide (mk = MatchKind.lpm) then some (swapFunction w)
             else none) })
  ∧ (generatesScalar w = false →
      ((emitKeyField tableIsLPM mk w).form =
        (if tableIsLPM && decide (mk = MatchKind.lpm) then
           CopyForm.reverseBytes (bytesRequired w)
         else CopyForm.memcpyBytes (bytesRequired w))
      ∧ (emitKeyField tableIsLPM mk w).widthErr = decide (64 < w)))
  ∧ (8 < w → w ≤ 64 → swapFunction w ≠ ("")) := by
  refine ⟨?_, ?_, ?_⟩
  · intro h
    have hw : w = 8 ∨ w = 16 ∨ w = 32 ∨ w = 64 := by
      have h2 : ((w = 8 ∨ w = 16) ∨ w = 32) ∨ w = 64 := by
        simpa [generatesScalar] using h
      tauto
    rcases hw with rfl | rfl | rfl | rfl <;>
      cases tableIsLPM <;> cases mk <;> rfl
  · intro h
    constructor
    · simp [emitKeyField, h]
    · rfl
  · intro h1 h2
    unfold swapFunction
    rw [if_neg (by omega)]
    by_cases h16 : w ≤ 16
    · rw [if_pos h16]
      decide
    · rw [if_neg h16]
      by_cases h32 : w ≤ 32
      · rw [if_pos h32]
        decide
      · rw [if_neg h32, if_pos h2]
        decide

/-- Witness: the LPM field of an LPM table at width 32 is directly assigned
wrapped in `bpf_htonl`. -/
theorem emitKeyField_encoding_witness :
    generatesScalar 32 = true
  ∧ emitKeyField true MatchKind.lpm 32 =
      { widthErr := false, form := CopyForm.direct (some ("bpf_htonl")) } := by
  refine ⟨rfl, ?_⟩
  have h := (emitKeyField_encoding true MatchKind.lpm 32).1 rfl
  simpa using h
